import Mathlib

/-!
Shallow embedding of the auction core of `src/index.js`
(`openAuction`, `bidAuction`, `closeAuction`, `updateCore`,
`processMessage`, `processAction`).

Modelling conventions:
* A persisted log entry `{type, name, owner, actor, price, time}` becomes
  `Entry`; the `time` field is a wall-clock timestamp (`Date.now()`) that no
  validation rule ever reads, so it is not modelled.
* The Corestore (one named append-only Hypercore per auction) becomes
  `Store := String → List Entry`; a never-touched name maps to the empty log,
  matching lazy creation of empty cores.
* All prices travel as strings (CLI tokens and JSON round-trips of strings);
  JavaScript `Number(...)` becomes `jsNumber : String → Option ℚ`, where
  `none` plays the role of `NaN`.  The parser covers the fragment of inputs
  this program produces and the spec discusses: non-negative decimal literals
  with an optional single fractional point; everything else is `none` (NaN).
  JavaScript comparisons `<=`/`<` on numbers are false when either side is
  NaN, giving `jsLe`/`jsLt` on `Option ℚ`.
* JavaScript `!=` between the string-valued fields (`type`, `owner`, `price`)
  is string inequality.
* Each action returns the JS boolean result together with the updated store.
-/

/-- One persisted log entry, as written by `updateCore` in `src/index.js`
(the wall-clock `time` field, never read by validation, is omitted). -/
structure Entry where
  type : String
  name : String
  owner : String
  actor : String
  price : String
deriving DecidableEq, Repr

/-- The Corestore: one append-only log per auction name; absent names are
empty logs (cores are created lazily and empty). -/
def Store : Type := String → List Entry

/-- The store with every log empty (fresh corestore; `fs.rmSync` wipes it at
startup). -/
def emptyStore : Store := fun _ => []

/-- Replace the log of one auction name, leaving every other log unchanged. -/
def updateStore (s : Store) (name : String) (log : List Entry) : Store :=
  fun n => if n = name then log else s n

/-- Value of a list of decimal digit characters, `none` if empty or any
character is not a digit. -/
def digitsVal (cs : List Char) : Option Nat :=
  match cs with
  | [] => none
  | _ =>
    cs.foldl
      (fun acc c =>
        acc.bind (fun n => if c.isDigit then some (10 * n + (c.toNat - 48)) else none))
      (some 0)

/-- An exact non-negative decimal value `num / 10 ^ scale`, the result of
JavaScript `Number(...)` on a decimal literal. -/
structure JsNum where
  num : Nat
  scale : Nat
deriving DecidableEq, Repr

/-- The rational value a `JsNum` denotes. -/
def JsNum.toRat (a : JsNum) : ℚ := (a.num : ℚ) / (10 : ℚ) ^ a.scale

/-- JavaScript `Number(s)` on the fragment of strings this program exchanges:
non-negative decimal literals, optionally with one fractional point
(e.g. `"75"`, `"75.5"`, `"80.0"`).  Any other string yields `none`,
playing the role of `NaN`. -/
def jsNumber (s : String) : Option JsNum :=
  match s.data.splitOn (Char.ofNat 46) with
  | [w] => (digitsVal w).map (fun n => ⟨n, 0⟩)
  | [w, f] =>
    match digitsVal w, digitsVal f with
    | some n, some m => some ⟨n * 10 ^ f.length + m, f.length⟩
    | _, _ => none
  | _ => none

/-- Numeric `a ≤ b` on exact decimals, by cross-multiplication. -/
def JsNum.le (a b : JsNum) : Bool :=
  decide (a.num * 10 ^ b.scale ≤ b.num * 10 ^ a.scale)

/-- Numeric `a < b` on exact decimals, by cross-multiplication. -/
def JsNum.lt (a b : JsNum) : Bool :=
  decide (a.num * 10 ^ b.scale < b.num * 10 ^ a.scale)

/-- Numeric `a == b` on exact decimals, by cross-multiplication. -/
def JsNum.numEq (a b : JsNum) : Bool :=
  decide (a.num * 10 ^ b.scale = b.num * 10 ^ a.scale)

/-- JavaScript `a <= b` on two `Number(...)` results: false whenever either
side is NaN (`none`). -/
def jsLe (a b : Option JsNum) : Bool :=
  match a, b with
  | some x, some y => x.le y
  | _, _ => false

/-- JavaScript `a < b` on two `Number(...)` results: false whenever either
side is NaN (`none`). -/
def jsLt (a b : Option JsNum) : Bool :=
  match a, b with
  | some x, some y => x.lt y
  | _, _ => false

/-- `updateCore` from `src/index.js`: append one entry
`{type, name, owner, actor, price}` to a core. -/
def updateCore (type name owner actor price : String) (core : List Entry) :
    List Entry :=
  core ++ [⟨type, name, owner, actor, price⟩]

/-- `openAuction(peer, name, price)` from `src/index.js`: reject unless the
log is empty or its last entry is a `close` owned by `peer`
(`lastAction.type != 'close' || lastAction.owner != peer`); on success append
an `open` entry and return `true`. -/
def openAuction (s : Store) (peer name price : String) : Bool × Store :=
  match (s name).getLast? with
  | none =>
    (true, updateStore s name (updateCore "open" name peer peer price (s name)))
  | some lastAction =>
    if lastAction.type ≠ "close" ∨ lastAction.owner ≠ peer then
      (false, s)
    else
      (true,
        updateStore s name
          (updateCore "open" name lastAction.owner peer price (s name)))

/-- `bidAuction(peer, name, price)` from `src/index.js`: reject when the log
is empty, when the last entry is a `close`, or when
`Number(price) <= Number(lastAction.price)`; on success append a `bid`
entry carrying the original owner and return `true`. -/
def bidAuction (s : Store) (peer name price : String) : Bool × Store :=
  match (s name).getLast? with
  | none => (false, s)
  | some lastAction =>
    if lastAction.type = "close" then (false, s)
    else if jsLe (jsNumber price) (jsNumber lastAction.price) then (false, s)
    else
      (true,
        updateStore s name
          (updateCore "bid" name lastAction.owner peer price (s name)))

/-- `closeAuction(peer, name, price)` from `src/index.js`: reject when the
log is empty, when `lastAction.owner != peer`, or when
`lastAction.price != price` (string comparison); on success append a `close`
entry whose owner is the previous entry's actor and return `true`. -/
def closeAuction (s : Store) (peer name price : String) : Bool × Store :=
  match (s name).getLast? with
  | none => (false, s)
  | some lastAction =>
    if lastAction.owner ≠ peer then (false, s)
    else if lastAction.price ≠ price then (false, s)
    else
      (true,
        updateStore s name
          (updateCore "close" name lastAction.actor peer price (s name)))

/-- A decoded gossip payload `{type, name, price}` (the sender's identity is
supplied by the transport connection, not the payload). -/
structure WireMsg where
  type : String
  name : String
  price : String
deriving DecidableEq, Repr

/-- An inbound raw payload: either it JSON-decodes to a `WireMsg` or it is
malformed (`none`), in which case `processMessage` returns after logging. -/
def RawMsg : Type := Option WireMsg

/-- `processMessage(peer, rawMessage)` from `src/index.js`: a malformed
payload is discarded; otherwise the three `if (msg.type === ...)` branches
dispatch to the matching action (at most one branch can fire, since
`msg.type` is a single string), each threading the store.  The result pairs
the store with the list of `(peer, message)` writes performed; the function
body contains no `peer.write` call, so that list is always empty. -/
def processMessage (s : Store) (peer : String) (m : RawMsg) :
    Store × List (String × WireMsg) :=
  match m with
  | none => (s, [])
  | some msg =>
    let s1 := if msg.type = "open" then (openAuction s peer msg.name msg.price).2 else s
    let s2 := if msg.type = "bid" then (bidAuction s1 peer msg.name msg.price).2 else s1
    let s3 := if msg.type = "close" then (closeAuction s2 peer msg.name msg.price).2 else s2
    (s3, [])

/-- `processAction(action)` from `src/index.js`, with the CLI line already
tokenized (`action.trim().split(/\s+/)`) into `tokens` and `conns` the
current `swarm.connections`.  Returns the updated store together with the
list of `(peer, serialized message)` writes performed: when the dispatched
action returns `true` the message `{type, name, price}` is written to every
connection; otherwise (failure, fewer than 3 tokens, or an unknown action
word) nothing is written. -/
def processAction (s : Store) (localPeer : String) (conns : List String)
    (tokens : List String) : Store × List (String × WireMsg) :=
  match tokens with
  | t :: n :: p :: _ =>
    let res : Bool × Store :=
      if t = "open" then openAuction s localPeer n p
      else if t = "bid" then bidAuction s localPeer n p
      else if t = "close" then closeAuction s localPeer n p
      else (false, s)
    if res.1 then (res.2, conns.map (fun c => (c, ⟨t, n, p⟩))) else (res.2, [])
  | _ => (s, [])

/-- One proposed operation: the action kind together with the acting peer,
auction name and price, as fed to `openAuction`/`bidAuction`/`closeAuction`
by either the CLI or an inbound message. -/
inductive Op where
  | openA (peer name price : String)
  | bidA (peer name price : String)
  | closeA (peer name price : String)
deriving DecidableEq, Repr

/-- Apply one operation to the store, keeping the state whether or not the
operation was accepted. -/
def applyOp (s : Store) : Op → Store
  | .openA peer name price => (openAuction s peer name price).2
  | .bidA peer name price => (bidAuction s peer name price).2
  | .closeA peer name price => (closeAuction s peer name price).2

/-- Run a sequence of proposed operations from a starting store. -/
def runOps (ops : List Op) (s : Store) : Store := ops.foldl applyOp s

/-- The non-`close` entries of a log, in log order. -/
def nonCloseEntries (l : List Entry) : List Entry :=
  l.filter (fun e => e.type ≠ "close")

/-- Adjacent prices are numerically strictly increasing (false when either
fails to parse, matching JS `<` on NaN). -/
def pricesChainB : List Entry → Bool
  | [] => true
  | [_] => true
  | a :: b :: rest =>
    jsLt (jsNumber a.price) (jsNumber b.price) && pricesChainB (b :: rest)

/-- The spec's invariant as claimed: the prices of the non-`close` entries of
a log, in log order, form a strictly increasing sequence. -/
def pricesStrictMono (l : List Entry) : Prop :=
  pricesChainB (nonCloseEntries l) = true

/-- The local guarantee the bid guard actually enforces between adjacent log
entries: whenever the later entry is a `bid` and both prices parse as
numbers, the later price is numerically strictly greater. -/
def bidStepOk (a b : Entry) : Prop :=
  b.type = "bid" →
    ∀ x y, jsNumber a.price = some x → jsNumber b.price = some y → x.lt y = true

/-- The store after peer `A` opens auction `pic1` at price `75` on a fresh
corestore: the log of `pic1` is a single `open` entry. -/
def sOpen75 : Store := (openAuction emptyStore "A" "pic1" "75").2

/-- The store after peer `A` opens `pic1` at `75` and then closes it at `75`
(no bids): the log of `pic1` ends in a `close` entry owned by `A`. -/
def sClosed75 : Store := (closeAuction sOpen75 "A" "pic1" "75").2

/-- The store after peer `A` opens auction `pic1` at price `80` on a fresh
corestore. -/
def sOpen80 : Store := (openAuction emptyStore "A" "pic1" "80").2

/-- Scenario of C8, step 2: `B` bids `75` on `pic1` (rejected, not higher). -/
def sc2 : Store := (bidAuction sOpen75 "B" "pic1" "75").2

/-- Scenario of C8, step 3: `C` bids `75.5` on `pic1` (accepted). -/
def sc3 : Store := (bidAuction sc2 "C" "pic1" "75.5").2

/-- Scenario of C8, step 4: `B` bids `80` on `pic1` (accepted). -/
def sc4 : Store := (bidAuction sc3 "B" "pic1" "80").2

/-- Scenario of C8, step 5: `A` closes `pic1` at `80` (accepted, new owner
`B`). -/
def sc5 : Store := (closeAuction sc4 "A" "pic1" "80").2

/-- An operation sequence in which a closed auction is legitimately reopened
at a price lower than the closing price. -/
def reopenLowerOps : List Op :=
  [Op.openA "A" "pic1" "75", Op.closeA "A" "pic1" "75", Op.openA "A" "pic1" "10"]

example : jsNumber "75.5" = some ⟨755, 1⟩ := by decide
example : jsNumber "80.0" = some ⟨800, 1⟩ := by decide
example : jsNumber "abc" = none := by decide
example : jsLe (jsNumber "75") (jsNumber "75") = true := by decide
example : jsLt (jsNumber "75.5") (jsNumber "80") = true := by decide
example : JsNum.numEq ⟨800, 1⟩ ⟨80, 0⟩ = true := by decide

/-- A comparison whose left operand is NaN is false, as in JavaScript. -/
lemma jsLe_none_left (b : Option JsNum) : jsLe none b = false := by
  cases b <;> rfl

/-- Shape of `openAuction` on an empty log. -/
lemma openAuction_none (s : Store) (peer name price : String)
    (h : (s name).getLast? = none) :
    openAuction s peer name price =
      (true, updateStore s name (updateCore "open" name peer peer price (s name))) := by
  unfold openAuction; rw [h]

/-- Shape of `openAuction` on a log with last entry `e`. -/
lemma openAuction_some (s : Store) (peer name price : String) (e : Entry)
    (h : (s name).getLast? = some e) :
    openAuction s peer name price =
      if e.type ≠ "close" ∨ e.owner ≠ peer then (false, s)
      else
        (true, updateStore s name (updateCore "open" name e.owner peer price (s name))) := by
  unfold openAuction; rw [h]

/-- Shape of `bidAuction` on an empty log. -/
lemma bidAuction_none (s : Store) (peer name price : String)
    (h : (s name).getLast? = none) :
    bidAuction s peer name price = (false, s) := by
  unfold bidAuction; rw [h]

/-- Shape of `bidAuction` on a log with last entry `e`. -/
lemma bidAuction_some (s : Store) (peer name price : String) (e : Entry)
    (h : (s name).getLast? = some e) :
    bidAuction s peer name price =
      if e.type = "close" then (false, s)
      else if jsLe (jsNumber price) (jsNumber e.price) then (false, s)
      else
        (true, updateStore s name (updateCore "bid" name e.owner peer price (s name))) := by
  unfold bidAuction; rw [h]

/-- Shape of `closeAuction` on an empty log. -/
lemma closeAuction_none (s : Store) (peer name price : String)
    (h : (s name).getLast? = none) :
    closeAuction s peer name price = (false, s) := by
  unfold closeAuction; rw [h]

/-- Shape of `closeAuction` on a log with last entry `e`. -/
lemma closeAuction_some (s : Store) (peer name price : String) (e : Entry)
    (h : (s name).getLast? = some e) :
    closeAuction s peer name price =
      if e.owner ≠ peer then (false, s)
      else if e.price ≠ price then (false, s)
      else
        (true, updateStore s name (updateCore "close" name e.actor peer price (s name))) := by
  unfold closeAuction; rw [h]

/-- C3: a successful `Close` on an auction whose tail is an `Open` or `Bid`
entry requires the closing peer to equal the tail's owner field (the original
seller), and appends a `close` entry whose owner field is the tail's actor
field (the winning bidder, or the seller itself if no bids occurred) and
whose actor field is the closing peer. -/
theorem close_success_transfers_ownership (s : Store) (peer name price : String)
    (e : Entry) (htail : (s name).getLast? = some e)
    (hactive : e.type = "open" ∨ e.type = "bid")
    (hok : (closeAuction s peer name price).1 = true) :
    peer = e.owner ∧
    (closeAuction s peer name price).2 name =
      s name ++ [⟨"close", name, e.actor, peer, price⟩] := by
  by_cases hown : e.owner = peer
  · by_cases hpr : e.price = price
    · exact ⟨hown.symm, by
        simp [closeAuction, htail, hown, hpr, updateStore, updateCore]⟩
    · exfalso; simp [closeAuction, htail, hown, hpr] at hok
  · exfalso; simp [closeAuction, htail, hown] at hok

/-- Witness for C3: `A` opened `pic1` at `75` and closes it at `75`; the
appended `close` entry records owner `A` (the tail's actor) and actor `A`. -/
theorem close_success_transfers_ownership_witness :
    "A" = "A" ∧
    (closeAuction sOpen75 "A" "pic1" "75").2 "pic1" =
      sOpen75 "pic1" ++ [⟨"close", "pic1", "A", "A", "75"⟩] :=
  close_success_transfers_ownership sOpen75 "A" "pic1" "75"
    ⟨"open", "pic1", "A", "A", "75"⟩ (by decide) (Or.inl rfl) (by decide)

/-- C5: on an auction whose tail is a `close` entry, an `Open` proposal
succeeds exactly when the proposing peer equals the tail's owner field (the
recorded new owner); any other peer's attempt is rejected and leaves the
whole store unchanged. -/
theorem reopen_iff_new_owner (s : Store) (peer name price : String) (e : Entry)
    (htail : (s name).getLast? = some e) (hclosed : e.type = "close") :
    ((openAuction s peer name price).1 = true ↔ peer = e.owner) ∧
    ((openAuction s peer name price).1 = false →
      (openAuction s peer name price).2 = s) := by
  have hres : openAuction s peer name price =
      if e.type ≠ "close" ∨ e.owner ≠ peer then (false, s)
      else
        (true, updateStore s name (updateCore "open" name e.owner peer price (s name))) := by
    unfold openAuction; rw [htail]
  constructor
  · rw [hres]
    by_cases hown : e.owner = peer
    · simp [hclosed, hown]
    · simp [hclosed, hown]
      exact fun h => hown h.symm
  · intro hfail
    rw [hres] at hfail ⊢
    by_cases hown : e.owner = peer
    · simp [hclosed, hown] at hfail
    · simp [hclosed, hown]

/-- Witness for C5: after `A` opened and closed `pic1` (owner `A`), a reopen
attempt by `B` fails and leaves the store unchanged, and the success
condition evaluates as the claim states. -/
theorem reopen_iff_new_owner_witness :
    (((openAuction sClosed75 "B" "pic1" "99").1 = true) ↔ ("B" = "A")) ∧
    ((openAuction sClosed75 "B" "pic1" "99").1 = false →
      (openAuction sClosed75 "B" "pic1" "99").2 = sClosed75) :=
  reopen_iff_new_owner sClosed75 "B" "pic1" "99"
    ⟨"close", "pic1", "A", "A", "75"⟩ (by decide) rfl

/-- C7: a malformed inbound payload leaves every log unchanged, and each of
the three actions, whenever it reports failure, returns the store exactly as
it was (no entry appended to any log). -/
theorem rejection_no_effect :
    (∀ s peer, (processMessage s peer none).1 = s) ∧
    (∀ s peer name price, (openAuction s peer name price).1 = false →
      (openAuction s peer name price).2 = s) ∧
    (∀ s peer name price, (bidAuction s peer name price).1 = false →
      (bidAuction s peer name price).2 = s) ∧
    (∀ s peer name price, (closeAuction s peer name price).1 = false →
      (closeAuction s peer name price).2 = s) := by
  refine ⟨fun s peer => rfl, fun s peer name price h => ?_,
    fun s peer name price h => ?_, fun s peer name price h => ?_⟩
  · cases hL : (s name).getLast? with
    | none => rw [openAuction_none s peer name price hL] at h; simp at h
    | some e =>
      rw [openAuction_some s peer name price e hL] at h ⊢
      split_ifs at h ⊢ <;> rfl
  · cases hL : (s name).getLast? with
    | none => rw [bidAuction_none s peer name price hL]
    | some e =>
      rw [bidAuction_some s peer name price e hL] at h ⊢
      split_ifs at h ⊢ <;> rfl
  · cases hL : (s name).getLast? with
    | none => rw [closeAuction_none s peer name price hL]
    | some e =>
      rw [closeAuction_some s peer name price e hL] at h ⊢
      split_ifs at h ⊢ <;> rfl

/-- Witness for C7: a malformed payload and a rejected bid (auction not
found) both leave the fresh store untouched. -/
theorem rejection_no_effect_witness :
    (processMessage emptyStore "A" none).1 = emptyStore ∧
    (bidAuction emptyStore "B" "pic1" "10").2 = emptyStore :=
  ⟨rejection_no_effect.1 emptyStore "A",
   rejection_no_effect.2.2.1 emptyStore "B" "pic1" "10" (by decide)⟩

/-- C10: a bid whose price does not parse as a number (JS `Number(price)` is
NaN) on an auction whose tail is a non-`close` entry passes the higher-price
guard (NaN comparisons are false) and is accepted, appending a `bid` entry
that records the non-numeric price. -/
theorem bid_nan_price_accepted (s : Store) (peer name price : String)
    (e : Entry) (htail : (s name).getLast? = some e)
    (hactive : e.type ≠ "close") (hnan : jsNumber price = none) :
    (bidAuction s peer name price).1 = true ∧
    (bidAuction s peer name price).2 name =
      s name ++ [⟨"bid", name, e.owner, peer, price⟩] := by
  have hres : bidAuction s peer name price =
      (true, updateStore s name (updateCore "bid" name e.owner peer price (s name))) := by
    unfold bidAuction; rw [htail]
    simp [hactive, hnan, jsLe_none_left]
  rw [hres]
  exact ⟨rfl, by simp [updateStore, updateCore]⟩

/-- Witness for C10: on `pic1` freshly opened at `75`, a bid with the
non-numeric price `"abc"` is accepted and lands in the log. -/
theorem bid_nan_price_accepted_witness :
    (bidAuction sOpen75 "B" "pic1" "abc").1 = true ∧
    (bidAuction sOpen75 "B" "pic1" "abc").2 "pic1" =
      sOpen75 "pic1" ++ [⟨"bid", "pic1", "A", "B", "abc"⟩] :=
  bid_nan_price_accepted sOpen75 "B" "pic1" "abc"
    ⟨"open", "pic1", "A", "A", "75"⟩ (by decide) (by decide) (by decide)

/-- C8: the spec's scenario — `A` opens `pic1` at 75; `B`'s bid at 75 is
rejected (not strictly higher); `C`'s bid at 75.5 is accepted; `B`'s bid at
80 is accepted; `A`'s close at 80 is accepted and records new owner `B`; a
reopen by `A` is then rejected while a reopen by `B` succeeds. -/
theorem scenario_pic1 :
    (openAuction emptyStore "A" "pic1" "75").1 = true ∧
    (bidAuction sOpen75 "B" "pic1" "75").1 = false ∧
    (bidAuction sc2 "C" "pic1" "75.5").1 = true ∧
    (bidAuction sc3 "B" "pic1" "80").1 = true ∧
    (closeAuction sc4 "A" "pic1" "80").1 = true ∧
    (sc5 "pic1").getLast? = some ⟨"close", "pic1", "B", "A", "80"⟩ ∧
    (openAuction sc5 "A" "pic1" "80").1 = false ∧
    (openAuction sc5 "B" "pic1" "80").1 = true := by
  decide

/-- C9: a locally originated action is broadcast to every connected peer
exactly when the dispatched validation-and-append returned `true` (too-short
or unknown commands broadcast nothing), while an inbound peer message is
routed through the same validation and ledger but performs no peer write at
all (no re-broadcast). -/
theorem broadcast_iff_local_success :
    (∀ s localPeer conns t n p rest,
      (processAction s localPeer conns (t :: n :: p :: rest)).2 =
        if (if t = "open" then openAuction s localPeer n p
            else if t = "bid" then bidAuction s localPeer n p
            else if t = "close" then closeAuction s localPeer n p
            else (false, s)).1
        then conns.map (fun c => (c, ⟨t, n, p⟩)) else []) ∧
    (∀ s localPeer conns tokens, tokens.length < 3 →
      (processAction s localPeer conns tokens).2 = []) ∧
    (∀ s peer m, (processMessage s peer m).2 = []) ∧
    (∀ s peer n p,
      (processMessage s peer (some ⟨"open", n, p⟩)).1 = (openAuction s peer n p).2) ∧
    (∀ s peer n p,
      (processMessage s peer (some ⟨"bid", n, p⟩)).1 = (bidAuction s peer n p).2) ∧
    (∀ s peer n p,
      (processMessage s peer (some ⟨"close", n, p⟩)).1 = (closeAuction s peer n p).2) := by
  refine ⟨?_, ?_, ?_, ?_, ?_, ?_⟩
  · intro s localPeer conns t n p rest
    show (if (if t = "open" then openAuction s localPeer n p
              else if t = "bid" then bidAuction s localPeer n p
              else if t = "close" then closeAuction s localPeer n p
              else (false, s)).1
          then _ else _ : Store × List (String × WireMsg)).2 = _
    split_ifs <;> rfl
  · intro s localPeer conns tokens hlen
    match tokens with
    | [] => rfl
    | [a] => rfl
    | [a, b] => rfl
    | a :: b :: c :: rest => simp [List.length_cons] at hlen; omega
  · intro s peer m
    cases m with
    | none => rfl
    | some msg => rfl
  · intro s peer n p
    simp [processMessage]
  · intro s peer n p
    simp [processMessage]
  · intro s peer n p
    simp [processMessage]

/-- Witness for C9: with two connections, the short command `open` (missing
its name and price tokens) broadcasts nothing. -/
theorem broadcast_iff_local_success_witness :
    (processAction emptyStore "A" ["B", "C"] ["open"]).2 = [] :=
  broadcast_iff_local_success.2.1 emptyStore "A" ["B", "C"] ["open"] (by decide)

/-- Counterexample to C1: after `A` opens and closes `pic1` at `75`, the tail
of the log is a `close` entry owned by `A`; yet a further `Close` proposal by
that owner `A` at the same price `75` is accepted and appended — `closeAuction`
has no closed-tail guard, contradicting the claim that every `Close` on a
closed auction is rejected. -/
theorem close_on_closed_accepted :
    (sClosed75 "pic1").getLast? = some ⟨"close", "pic1", "A", "A", "75"⟩ ∧
    (closeAuction sClosed75 "A" "pic1" "75").1 = true ∧
    (closeAuction sClosed75 "A" "pic1" "75").2 "pic1" =
      sClosed75 "pic1" ++ [⟨"close", "pic1", "A", "A", "75"⟩] := by
  decide

/-- C1 amended: on an auction whose tail is a `close` entry, a `Close`
proposal is rejected — leaving the store unchanged — exactly when the
proposing peer differs from the tail's owner field or the proposed price
string differs from the tail's price; when the proposer equals the tail's
owner and the price equals the tail's price, the close is accepted (and a
further `close` entry appended), since `closeAuction` has no
`AuctionClosed` guard. -/
theorem close_on_closed_iff_owner_and_price (s : Store)
    (peer name price : String) (e : Entry)
    (htail : (s name).getLast? = some e) (hclosed : e.type = "close") :
    ((closeAuction s peer name price).1 = true ↔
      (peer = e.owner ∧ price = e.price)) ∧
    ((closeAuction s peer name price).1 = false →
      (closeAuction s peer name price).2 = s) := by
  have hres := closeAuction_some s peer name price e htail
  constructor
  · rw [hres]
    by_cases hown : e.owner = peer
    · by_cases hpr : e.price = price
      · rw [if_neg (not_not_intro hown), if_neg (not_not_intro hpr)]
        exact iff_of_true rfl ⟨hown.symm, hpr.symm⟩
      · rw [if_neg (not_not_intro hown), if_pos hpr]
        exact iff_of_false (by simp) (fun hc => hpr hc.2.symm)
    · rw [if_pos hown]
      exact iff_of_false (by simp) (fun hc => hown hc.1.symm)
  · intro hfail
    rw [hres] at hfail ⊢
    split_ifs at hfail ⊢ <;> rfl

/-- Witness for C1's amended claim: on the closed `pic1` (owner `A`), a close
attempt by `B` is rejected and changes nothing, and the acceptance condition
is as stated. -/
theorem close_on_closed_iff_owner_and_price_witness :
    (((closeAuction sClosed75 "B" "pic1" "75").1 = true) ↔
      ("B" = "A" ∧ "75" = "75")) ∧
    (((closeAuction sClosed75 "B" "pic1" "75").1 = false) →
      (closeAuction sClosed75 "B" "pic1" "75").2 = sClosed75) :=
  close_on_closed_iff_owner_and_price sClosed75 "B" "pic1" "75"
    ⟨"close", "pic1", "A", "A", "75"⟩ (by decide) rfl

/-- Counterexample to C4: `"80.0"` and `"80"` denote the same number, yet a
close by the seller `A` at `"80.0"` of `pic1` opened at `"80"` is rejected:
`closeAuction` compares the price strings with JavaScript `!=`, not
numerically. -/
theorem close_numeric_price_rejected :
    jsNumber "80.0" = some ⟨800, 1⟩ ∧
    jsNumber "80" = some ⟨80, 0⟩ ∧
    JsNum.numEq ⟨800, 1⟩ ⟨80, 0⟩ = true ∧
    (sOpen80 "pic1").getLast? = some ⟨"open", "pic1", "A", "A", "80"⟩ ∧
    (closeAuction sOpen80 "A" "pic1" "80.0").1 = false ∧
    (closeAuction sOpen80 "A" "pic1" "80.0").2 = sOpen80 := by
  refine ⟨by decide, by decide, by decide, by decide, by decide, ?_⟩
  rfl

/-- C4 amended: the close-price comparison is lexical, not numeric — on an
auction whose tail is an `Open` or `Bid` entry, a `Close` by the seller is
accepted exactly when the proposed price string equals the tail's price
string, so a numerically equal but textually different price is rejected
(only the bid guard compares numerically). -/
theorem close_price_check_is_lexical (s : Store) (peer name price : String)
    (e : Entry) (htail : (s name).getLast? = some e)
    (hactive : e.type = "open" ∨ e.type = "bid")
    (hseller : peer = e.owner) :
    (closeAuction s peer name price).1 = true ↔ price = e.price := by
  rw [closeAuction_some s peer name price e htail,
    if_neg (not_not_intro hseller.symm)]
  by_cases hpr : e.price = price
  · rw [if_neg (not_not_intro hpr)]
    exact iff_of_true rfl hpr.symm
  · rw [if_pos hpr]
    exact iff_of_false (by simp) (fun h => hpr h.symm)

/-- Witness for C4's amended claim: on `pic1` opened at `"80"`, a close by
the seller at the string `"80"` is accepted, matching the stated iff. -/
theorem close_price_check_is_lexical_witness :
    (closeAuction sOpen80 "A" "pic1" "80").1 = true ↔ ("80" = "80") :=
  close_price_check_is_lexical sOpen80 "A" "pic1" "80"
    ⟨"open", "pic1", "A", "A", "80"⟩ (by decide) (Or.inl rfl) rfl

/-- Counterexample to C6 (its negation): there is no `Open` proposal on an
auction whose tail is a non-`close` entry that escapes rejection — the guard
`lastAction.type != 'close' || lastAction.owner != peer` fires on its first
disjunct for every such proposal, so the source does explicitly reject
re-`Open` while the auction is active. -/
theorem open_on_active_never_accepted :
    ¬ ∃ (s : Store) (peer name price : String) (e : Entry),
        (s name).getLast? = some e ∧ e.type ≠ "close" ∧
        (openAuction s peer name price).1 = true := by
  rintro ⟨s, peer, name, price, e, htail, hactive, hok⟩
  rw [openAuction_some s peer name price e htail,
    if_pos (Or.inl hactive)] at hok
  simp at hok

/-- C6 amended: an `Open` proposal arriving while the auction's tail is still
a non-closed (`open` or `bid`) entry is always rejected, for every proposer
and price, and leaves the store unchanged: the reopen guard requires the
tail to be a `close` entry, which implicitly blocks re-opening an active
auction. -/
theorem open_on_active_rejected (s : Store) (peer name price : String)
    (e : Entry) (htail : (s name).getLast? = some e)
    (hactive : e.type ≠ "close") :
    (openAuction s peer name price).1 = false ∧
    (openAuction s peer name price).2 = s := by
  rw [openAuction_some s peer name price e htail, if_pos (Or.inl hactive)]
  exact ⟨rfl, rfl⟩

/-- Witness for C6's amended claim: while `pic1` is open (tail is the `open`
entry by `A`), a re-open attempt by `B` is rejected and changes nothing. -/
theorem open_on_active_rejected_witness :
    (openAuction sOpen75 "B" "pic1" "99").1 = false ∧
    (openAuction sOpen75 "B" "pic1" "99").2 = sOpen75 :=
  open_on_active_rejected sOpen75 "B" "pic1" "99"
    ⟨"open", "pic1", "A", "A", "75"⟩ (by decide) (by decide)

/-- `updateStore` preserves per-log chain goodness when the new log is good. -/
lemma chain_updateStore (s : Store) (name : String) (l : List Entry)
    (h : ∀ m, List.Chain' bidStepOk (s m)) (hl : List.Chain' bidStepOk l)
    (m : String) : List.Chain' bidStepOk (updateStore s name l m) := by
  show List.Chain' bidStepOk (if m = name then l else s m)
  split_ifs with hm
  · exact hl
  · exact h m

/-- An entry that is not a `bid` vacuously satisfies the local bid
guarantee. -/
lemma bidStepOk_of_type_ne {a e : Entry} (h : e.type ≠ "bid") : bidStepOk a e :=
  fun hb => absurd hb h

/-- An appended `open` entry vacuously satisfies the local bid guarantee. -/
lemma bidStepOk_open (a : Entry) (nm ow ac pr : String) :
    bidStepOk a ⟨"open", nm, ow, ac, pr⟩ := by
  intro hb
  have hb2 : "open" = "bid" := hb
  exact absurd hb2 (by decide)

/-- An appended `close` entry vacuously satisfies the local bid guarantee. -/
lemma bidStepOk_close (a : Entry) (nm ow ac pr : String) :
    bidStepOk a ⟨"close", nm, ow, ac, pr⟩ := by
  intro hb
  have hb2 : "close" = "bid" := hb
  exact absurd hb2 (by decide)

/-- When JavaScript `y <= x` is false on two parsed numbers, `x < y` holds
numerically. -/
lemma lt_of_not_jsLe {x y : JsNum} (h : ¬ jsLe (some y) (some x) = true) :
    x.lt y = true := by
  simp only [jsLe, JsNum.le, decide_eq_true_eq] at h
  simp only [JsNum.lt, decide_eq_true_eq]
  exact not_le.mp h

/-- Appending one entry to a chain-good log keeps it chain-good when the new
last adjacent pair is good. -/
lemma chain'_append_entry {l : List Entry} {e : Entry}
    (h : List.Chain' bidStepOk l)
    (he : ∀ a, l.getLast? = some a → bidStepOk a e) :
    List.Chain' bidStepOk (l ++ [e]) := by
  rw [List.chain'_append]
  refine ⟨h, List.chain'_singleton e, ?_⟩
  intro x hx y hy
  simp only [List.head?_cons, Option.mem_def, Option.some.injEq] at hy
  subst hy
  exact he x (Option.mem_def.mp hx)

/-- One proposal, accepted or rejected, preserves the local bid guarantee in
every log. -/
lemma chain_preserved_applyOp (s : Store) (op : Op)
    (h : ∀ m, List.Chain' bidStepOk (s m)) :
    ∀ m, List.Chain' bidStepOk (applyOp s op m) := by
  intro m
  cases op with
  | openA peer name price =>
    show List.Chain' bidStepOk ((openAuction s peer name price).2 m)
    cases hL : (s name).getLast? with
    | none =>
      rw [openAuction_none s peer name price hL]
      exact chain_updateStore s name _ h
        (chain'_append_entry (h name) (fun a _ => bidStepOk_open a name peer peer price)) m
    | some e =>
      rw [openAuction_some s peer name price e hL]
      split_ifs with hc
      · exact h m
      · exact chain_updateStore s name _ h
          (chain'_append_entry (h name) (fun a _ => bidStepOk_open a name e.owner peer price)) m
  | bidA peer name price =>
    show List.Chain' bidStepOk ((bidAuction s peer name price).2 m)
    cases hL : (s name).getLast? with
    | none => rw [bidAuction_none s peer name price hL]; exact h m
    | some e =>
      rw [bidAuction_some s peer name price e hL]
      split_ifs with h1 h2
      · exact h m
      · exact h m
      · refine chain_updateStore s name _ h (chain'_append_entry (h name) ?_) m
        intro a ha
        have hae : a = e := by
          rw [hL] at ha
          exact (Option.some.inj ha).symm
        subst hae
        intro hb x y hx hy
        have hy2 : jsNumber price = some y := hy
        rw [hx, hy2] at h2
        exact lt_of_not_jsLe h2
  | closeA peer name price =>
    show List.Chain' bidStepOk ((closeAuction s peer name price).2 m)
    cases hL : (s name).getLast? with
    | none => rw [closeAuction_none s peer name price hL]; exact h m
    | some e =>
      rw [closeAuction_some s peer name price e hL]
      split_ifs with h1 h2
      · exact h m
      · exact h m
      · exact chain_updateStore s name _ h
          (chain'_append_entry (h name) (fun a _ => bidStepOk_close a name e.actor peer price)) m

/-- Counterexample to C2: the three proposals open-75, close-75, reopen-10
on `pic1` are all accepted (the log receives all three entries — note the
reopen is accepted even at the lower price 10, since `openAuction` never
compares prices), and the resulting non-`close` price sequence 75, 10 is not
strictly increasing. -/
theorem prices_not_strictMono_after_reopen :
    runOps reopenLowerOps emptyStore "pic1" =
      [⟨"open", "pic1", "A", "A", "75"⟩, ⟨"close", "pic1", "A", "A", "75"⟩,
       ⟨"open", "pic1", "A", "A", "10"⟩] ∧
    (openAuction sClosed75 "A" "pic1" "10").1 = true ∧
    ¬ pricesStrictMono (runOps reopenLowerOps emptyStore "pic1") := by
  refine ⟨by decide, by decide, ?_⟩
  show ¬ pricesChainB (nonCloseEntries (runOps reopenLowerOps emptyStore "pic1")) = true
  decide

/-- C2 amended: in every auction log produced by any sequence of proposals
from the fresh store, every `bid` entry's price is numerically strictly
greater than the immediately preceding entry's price whenever both prices
parse as numbers; the full non-`close` price sequence need not be strictly
increasing, because a reopen may relaunch the auction at a lower price (and
non-numeric prices bypass the numeric guard). -/
theorem bid_entries_exceed_predecessor (ops : List Op) (name : String) :
    List.Chain' bidStepOk (runOps ops emptyStore name) := by
  have main : ∀ (l : List Op) (s : Store),
      (∀ m, List.Chain' bidStepOk (s m)) →
      ∀ m, List.Chain' bidStepOk (runOps l s m) := by
    intro l
    induction l with
    | nil => intro s hs m; exact hs m
    | cons op rest ih =>
      intro s hs m
      exact ih (applyOp s op) (chain_preserved_applyOp s op hs) m
  exact main ops emptyStore (fun m => List.chain'_nil) name
